import Mathlib

/-!
Verification of the lunash launcher (src/main.rs) against its specification.

The development shallowly embeds the host-side logic of the launcher:
script resolution (find_script), the string utilities module (StringUtils),
the filesystem module (FsUtils), the pattern-matching wrapper (RegexWrapper)
over a model of the external regex engine, the HTTP module error mapping
(HttpModule), and the argument-vector injection performed by main.

External effects (filesystem probing, the OS readlink call, the network) are
passed in as explicit inputs, so every embedded operation is a total
function; machine strings are Lean String / List Char.
-/

namespace Lunash

/-- Model of an mlua error value as produced by the native modules: every
failure site in the source constructs mlua Error RuntimeError with a
message string. -/
inductive LuaError where
  | runtimeError (msg : String)
deriving DecidableEq

/-! ### String module: Rust str split and trim

The source (StringUtils) wraps Rust str split with a string pattern and
str trim.  We embed Rust split faithfully via its matcher semantics: the
list of non-overlapping pattern matches is computed left to right (an empty
pattern matches at every boundary, including both ends), and the pieces are
the slices between consecutive matches. -/

/-- The pattern occurs in `s` starting at index `j`. -/
def occursAt (pat s : List Char) (j : Nat) : Bool :=
  pat.isPrefixOf (s.drop j)

/-- Scan indices `j, j+1, ...` (at most `fuel` of them) for the first
occurrence of the pattern. -/
def firstOccurGo (pat s : List Char) (j : Nat) : Nat → Option Nat
  | 0 => none
  | fuel + 1 =>
    if occursAt pat s j then some j else firstOccurGo pat s (j + 1) fuel

/-- Index of the first occurrence of the pattern at position `i` or later
(positions run up to and including `s.length`, as in the Rust searcher). -/
def firstOccurFrom (pat s : List Char) (i : Nat) : Option Nat :=
  firstOccurGo pat s i (s.length + 1 - i)

/-- The (start, end) spans of the non-overlapping matches of the pattern,
scanning left to right; after each match the scan resumes at its end, or
one position further for an empty match (Rust boundary semantics). -/
def matchesGo (pat s : List Char) (i : Nat) : Nat → List (Nat × Nat)
  | 0 => []
  | fuel + 1 =>
    match firstOccurFrom pat s i with
    | none => []
    | some j => (j, j + pat.length) :: matchesGo pat s (j + max 1 pat.length) fuel

/-- All matches of the pattern in `s`. -/
def patMatches (pat s : List Char) : List (Nat × Nat) :=
  matchesGo pat s 0 (s.length + 1)

/-- The split pieces: the slice before each match (measured from the end of
the previous match) and the final slice after the last match. -/
def piecesFrom (s : List Char) (prevEnd : Nat) : List (Nat × Nat) → List (List Char)
  | [] => [s.drop prevEnd]
  | (st, en) :: rest => (s.drop prevEnd).take (st - prevEnd) :: piecesFrom s en rest

/-- Rust str split on a string pattern, at the character level. -/
def splitChars (s pat : List Char) : List (List Char) :=
  piecesFrom s 0 (patMatches pat s)

namespace StringUtils

/-- The split function of the stringx module: `s.split(&pat).collect()`. -/
def split (s pat : String) : List String :=
  (splitChars s.data pat.data).map (fun l => String.mk l)

/-- Rust char is_whitespace: the Unicode White_Space code points. -/
def rustIsWhitespace (c : Char) : Bool :=
  let n := c.toNat
  n == 0x09 || n == 0x0A || n == 0x0B || n == 0x0C || n == 0x0D || n == 0x20 ||
  n == 0x85 || n == 0xA0 || n == 0x1680 || (0x2000 ≤ n && n ≤ 0x200A) ||
  n == 0x2028 || n == 0x2029 || n == 0x202F || n == 0x205F || n == 0x3000

/-- The trim function of the stringx module: `s.trim().to_string()`,
removing leading and trailing whitespace. -/
def trim (s : String) : String :=
  String.mk (((s.data.dropWhile rustIsWhitespace).reverse.dropWhile
    rustIsWhitespace).reverse)

end StringUtils

/-! ### Lemmas about split with an empty pattern -/

theorem occursAt_nil (s : List Char) (j : Nat) : occursAt [] s j = true := by
  simp [occursAt, List.isPrefixOf]

theorem firstOccurFrom_nil (s : List Char) (i : Nat) (h : i ≤ s.length) :
    firstOccurFrom [] s i = some i := by
  unfold firstOccurFrom
  obtain ⟨k, hk⟩ : ∃ k, s.length + 1 - i = k + 1 := ⟨s.length - i, by omega⟩
  rw [hk]
  simp [firstOccurGo, occursAt_nil]

theorem matchesGo_nil (s : List Char) :
    ∀ (fuel i : Nat), i + fuel = s.length + 1 →
      matchesGo [] s i fuel = (List.range' i fuel).map (fun j => (j, j)) := by
  intro fuel
  induction fuel with
  | zero => intro i _; rfl
  | succ n ih =>
    intro i h
    simp only [matchesGo]
    rw [firstOccurFrom_nil s i (by omega)]
    rw [List.range'_succ]
    simp only [List.map_cons, List.length_nil, Nat.add_zero, Nat.max_eq_left
      (Nat.zero_le 1)]
    rw [ih (i + 1) (by omega)]

theorem piecesFrom_nil (s : List Char) :
    ∀ (k i : Nat), i + k = s.length →
      piecesFrom s i ((List.range' (i + 1) k).map (fun j => (j, j))) =
        (s.drop i).map (fun c => [c]) ++ [[]] := by
  intro k
  induction k with
  | zero =>
    intro i h
    have : i = s.length := by omega
    subst this
    simp [piecesFrom, List.drop_length]
  | succ n ih =>
    intro i h
    rw [List.range'_succ, List.map_cons]
    rw [piecesFrom]
    rw [ih (i + 1) (by omega)]
    have hi : i < s.length := by omega
    have h1 : i + 1 - i = 1 := by omega
    rw [h1, List.drop_eq_getElem_cons hi]
    have h2 : List.take 1 (s[i] :: List.drop (i + 1) s) = [s[i]] := rfl
    rw [h2, List.map_cons, List.cons_append]

theorem splitChars_nil (s : List Char) :
    splitChars s [] = [] :: s.map (fun c => [c]) ++ [[]] := by
  unfold splitChars patMatches
  rw [matchesGo_nil s (s.length + 1) 0 (by omega)]
  rw [List.range'_succ]
  simp only [List.map_cons]
  rw [piecesFrom]
  rw [piecesFrom_nil s s.length 0 (by omega)]
  have h0 : (s.drop 0).take (0 - 0) = [] := rfl
  rw [h0, List.drop_zero, List.cons_append]

/-- Claim C6: the string module preserves empty segments when splitting —
split "a,,b" on "," yields ["a", "", "b"] — and trim removes surrounding
whitespace — trim "  x  " yields "x". -/
theorem c6_split_preserves_empty_segments_and_trim :
    StringUtils.split "a,,b" "," = ["a", "", "b"] ∧
    StringUtils.trim "  x  " = "x" := by
  constructor <;> decide

/-- Claim C10: splitting any string on the empty separator yields a sequence
that begins and ends with an empty string and contains each character of the
input as its own element, in order; the operation is total (no error). -/
theorem c10_split_empty_separator (s : String) :
    StringUtils.split s "" = "" :: s.data.map (fun c => String.mk [c]) ++ [""] := by
  unfold StringUtils.split
  have hpat : ("" : String).data = [] := rfl
  rw [hpat, splitChars_nil]
  simp only [List.map_append, List.map_cons, List.map_map, List.map_nil]
  rfl

/-! ### Script resolution (find_script) and the launcher error path

The function find_script probes the filesystem; we pass the external world
in explicitly as a SysEnv: the existence predicate of the filesystem, the
per-user application-data directory reported by the directories crate (absent
when no home directory is available), and the LUA_SCRIPT_PATH variable. -/

/-- Rust Path join: an absolute right-hand side replaces the base, otherwise
the two are joined with a separator. -/
def pathJoin (base p : String) : String :=
  if p.startsWith "/" then p
  else if base = "" then p
  else if base.endsWith "/" then base ++ p
  else base ++ "/" ++ p

/-- Modelled from the spec: the fixed launcher identifier embedded in every
script filename (the source reads it from env CARGO_PKG_NAME at compile
time; the Cargo manifest is not among the sources, and the spec fixes the
vendor/application identifier lunash, also used for ProjectDirs). -/
def cargo_pkg_name : String := "lunash"

/-- The external world consulted by find_script. -/
structure SysEnv where
  fileExists : String → Bool
  dataLocalDir : Option String
  luaScriptPath : Option String

/-- The canonical script filename: format of name, CARGO_PKG_NAME, lua. -/
def script_name_of (name : String) : String :=
  name ++ "." ++ cargo_pkg_name ++ ".lua"

/-- The tier-3 loop of find_script: for each directory of the colon-separated
variable, in order, return the first directory whose joined path exists. -/
def findInDirs (env : SysEnv) (sname : String) : List String → Option String
  | [] => none
  | dir :: rest =>
    let script_path := pathJoin dir sname
    if env.fileExists script_path then some script_path
    else findInDirs env sname rest

/-- Embedding of find_script from the source: tier 1 the current directory,
tier 2 the data-local directory joined with scripts, tier 3 the directories
of LUA_SCRIPT_PATH in listed order. -/
def find_script (env : SysEnv) (program_name : String) : Option String :=
  let script_name := script_name_of program_name
  if env.fileExists script_name then some script_name
  else
    let tier2 :=
      match env.dataLocalDir with
      | some d =>
        let user_script := pathJoin (pathJoin d "scripts") script_name
        if env.fileExists user_script then some user_script else none
      | none => none
    match tier2 with
    | some p => some p
    | none =>
      match env.luaScriptPath with
      | some path_var =>
          findInDirs env script_name (StringUtils.split path_var ":")
      | none => none

/-- The candidate paths find_script probes, in probe order. -/
def candidates (env : SysEnv) (program_name : String) : List String :=
  let script_name := script_name_of program_name
  script_name ::
    ((match env.dataLocalDir with
      | some d => [pathJoin (pathJoin d "scripts") script_name]
      | none => []) ++
     (match env.luaScriptPath with
      | some path_var =>
          (StringUtils.split path_var ":").map (fun dir => pathJoin dir script_name)
      | none => []))

theorem findInDirs_eq_find? (env : SysEnv) (sname : String) (dirs : List String) :
    findInDirs env sname dirs =
      (dirs.map (fun dir => pathJoin dir sname)).find? env.fileExists := by
  induction dirs with
  | nil => rfl
  | cons d rest ih =>
    simp only [findInDirs, List.map_cons]
    cases h : env.fileExists (pathJoin d sname) with
    | true => rw [List.find?_cons_of_pos _ h]; simp [h]
    | false => rw [List.find?_cons_of_neg _ (by simp [h])]; simp [h, ih]

theorem find_script_eq_find? (env : SysEnv) (name : String) :
    find_script env name = (candidates env name).find? env.fileExists := by
  unfold find_script candidates
  cases h1 : env.fileExists (script_name_of name) with
  | true => rw [List.find?_cons_of_pos _ h1]; simp [h1]
  | false =>
    rw [List.find?_cons_of_neg _ (by simp [h1])]
    cases hd : env.dataLocalDir with
    | none =>
      cases hp : env.luaScriptPath with
      | none => simp [h1]
      | some pv => simp [h1, findInDirs_eq_find?]
    | some d =>
      cases h2 : env.fileExists (pathJoin (pathJoin d "scripts") (script_name_of name)) with
      | true =>
        rw [List.cons_append, List.find?_cons_of_pos _ h2]
        simp [h1, h2]
      | false =>
        rw [List.cons_append, List.find?_cons_of_neg _ (by simp [h2])]
        cases hp : env.luaScriptPath with
        | none => simp [h1, h2]
        | some pv => simp [h1, h2, findInDirs_eq_find?]

/-- Claim C1: resolution constructs the canonical filename and probes the
tiers in fixed order — current directory, then the data-local scripts
directory, then each directory of the colon-separated variable in listed
order — returning the first existing match; when the file exists in tier 1
the result is the tier-1 path, whatever tiers 2 and 3 hold. -/
theorem c1_resolution_tier_order (env : SysEnv) (name : String) :
    find_script env name = (candidates env name).find? env.fileExists ∧
    (candidates env name).head? = some (script_name_of name) ∧
    (env.fileExists (script_name_of name) = true →
      find_script env name = some (script_name_of name)) := by
  refine ⟨find_script_eq_find? env name, rfl, fun h => ?_⟩
  unfold find_script
  simp [h]

/-- Concrete world for the resolution witnesses: only the tier-1 candidate
for the name foo exists, while tiers 2 and 3 are populated. -/
def envTier1 : SysEnv :=
  ⟨fun s => s == "foo.lunash.lua", some "/home/user/.local/share/lunash",
    some "/a:/b"⟩

theorem c1_resolution_tier_order_witness :
    envTier1.fileExists (script_name_of "foo") = true ∧
    find_script envTier1 "foo" = some (script_name_of "foo") :=
  ⟨by decide, (c1_resolution_tier_order envTier1 "foo").2.2 (by decide)⟩

/-- One-character string holding the ASCII apostrophe, code point 39. -/
def squote : String := String.singleton (Char.ofNat 39)

/-- The message built by main when resolution fails: format of
Script for, the quoted name, not found. -/
def not_found_msg (name : String) : String :=
  "Script for " ++ squote ++ name ++ squote ++ " not found"

/-- The resolution step of main: ok_or_else turns the absent script into an
error value, which the question-mark operator propagates out of main. -/
def run_resolution (env : SysEnv) (name : String) : Except String String :=
  match find_script env name with
  | some p => .ok p
  | none => .error (not_found_msg name)

/-- A Rust main returning Result exits with status 0 on Ok and a non-zero
status (1) on Err. -/
def process_exit_code : Except String String → Nat
  | .ok _ => 0
  | .error _ => 1

/-- Claim C2: when the canonical filename exists in none of the three search
tiers, resolution returns none, main reports the not-found error naming the
script, and the process exit status is non-zero; every function involved is
total, so no crash occurs. -/
theorem c2_resolution_not_found (env : SysEnv) (name : String)
    (h : ∀ c ∈ candidates env name, env.fileExists c = false) :
    find_script env name = none ∧
    run_resolution env name = .error (not_found_msg name) ∧
    process_exit_code (run_resolution env name) ≠ 0 := by
  have hn : find_script env name = none := by
    rw [find_script_eq_find?]
    exact List.find?_eq_none.mpr (fun x hx => by simp [h x hx])
  refine ⟨hn, ?_, ?_⟩ <;> simp [run_resolution, hn, process_exit_code]

/-- Concrete world for the not-found witness: no file exists anywhere. -/
def envEmpty : SysEnv := ⟨fun _ => false, some "/data/lunash", some "/a:/b"⟩

theorem c2_resolution_not_found_witness :
    find_script envEmpty "foo" = none ∧
    run_resolution envEmpty "foo" = .error (not_found_msg "foo") ∧
    process_exit_code (run_resolution envEmpty "foo") ≠ 0 :=
  c2_resolution_not_found envEmpty "foo" (by intro c _; rfl)

/-! ### HTTP module

Both get and post first fetch the shared client from the Lua application
data (absent on session misconfiguration), then take the mutex lock (which
fails when poisoned), then issue the request over the external transport and
decode the body.  The three external effects are passed in explicitly: the
presence of the client in the app data, the poisoned state of the lock, and
the outcome of the network call. -/

/-- Outcome of the external transport for one request: the send itself can
fail, the body decoding can fail, or a body text is produced. -/
inductive NetOutcome where
  | sendErr (msg : String)
  | textErr (msg : String)
  | ok (body : String)

/-- Embedding of the get method of the http module. -/
def HttpModule.get (clientPresent lockPoisoned : Bool) (net : NetOutcome) :
    Except LuaError String :=
  if clientPresent = false then
    .error (.runtimeError "HTTP client not available")
  else if lockPoisoned then
    .error (.runtimeError "HTTP client lock poisoned")
  else
    match net with
    | .sendErr m => .error (.runtimeError m)
    | .textErr m => .error (.runtimeError m)
    | .ok b => .ok b

/-- Embedding of the post method of the http module; its error structure is
identical to get (the request body only affects the transport outcome). -/
def HttpModule.post (clientPresent lockPoisoned : Bool) (net : NetOutcome) :
    Except LuaError String :=
  if clientPresent = false then
    .error (.runtimeError "HTTP client not available")
  else if lockPoisoned then
    .error (.runtimeError "HTTP client lock poisoned")
  else
    match net with
    | .sendErr m => .error (.runtimeError m)
    | .textErr m => .error (.runtimeError m)
    | .ok b => .ok b

/-- Claim C3: in both get and post, every failure maps to its reported error
value and never a crash — an absent client gives the fixed setup message, a
poisoned lock gives the fixed client-unavailable message (the two are
distinct strings, and both differ from a request error, which carries the
underlying transport message), a failed network call gives a request error
with the transport message, and an undecodable body gives a decode error
with the decoder message; on success the body text is returned.  All cases
produce Except values of total functions, so no exception or crash occurs. -/
theorem c3_http_error_mapping :
    (∀ (lp : Bool) (net : NetOutcome),
      HttpModule.get false lp net =
        .error (.runtimeError "HTTP client not available") ∧
      HttpModule.post false lp net =
        .error (.runtimeError "HTTP client not available")) ∧
    (∀ net : NetOutcome,
      HttpModule.get true true net =
        .error (.runtimeError "HTTP client lock poisoned") ∧
      HttpModule.post true true net =
        .error (.runtimeError "HTTP client lock poisoned")) ∧
    (∀ m : String,
      HttpModule.get true false (.sendErr m) = .error (.runtimeError m) ∧
      HttpModule.post true false (.sendErr m) = .error (.runtimeError m)) ∧
    (∀ m : String,
      HttpModule.get true false (.textErr m) = .error (.runtimeError m) ∧
      HttpModule.post true false (.textErr m) = .error (.runtimeError m)) ∧
    (∀ b : String,
      HttpModule.get true false (.ok b) = .ok b ∧
      HttpModule.post true false (.ok b) = .ok b) ∧
    ("HTTP client not available" ≠ "HTTP client lock poisoned") := by
  refine ⟨fun lp net => ⟨rfl, rfl⟩, fun net => ⟨rfl, rfl⟩,
    fun m => ⟨rfl, rfl⟩, fun m => ⟨rfl, rfl⟩, fun b => ⟨rfl, rfl⟩, by decide⟩

/-! ### Filesystem module: readlink

The OS read_link call either yields the target path — on Unix an arbitrary
byte sequence — or an error.  The source maps the target through OsStr
to_str, which is some exactly when the bytes are valid UTF-8; a str is
represented here by its UTF-8 bytes. -/

/-- UTF-8 continuation byte. -/
def isCont (b : Nat) : Bool := 0x80 ≤ b && b ≤ 0xBF

/-- UTF-8 validity scanner with explicit fuel; every step consumes at least
one byte, so fuel equal to the length suffices. -/
def validUtf8Go : Nat → List Nat → Bool
  | _, [] => true
  | 0, _ :: _ => false
  | fuel + 1, b :: rest =>
    if b ≤ 0x7F then validUtf8Go fuel rest
    else if b < 0xC2 then false
    else if b ≤ 0xDF then
      match rest with
      | c1 :: r => isCont c1 && validUtf8Go fuel r
      | [] => false
    else if b ≤ 0xEF then
      match rest with
      | c1 :: c2 :: r =>
        (if b == 0xE0 then decide (0xA0 ≤ c1) && decide (c1 ≤ 0xBF)
         else if b == 0xED then decide (0x80 ≤ c1) && decide (c1 ≤ 0x9F)
         else isCont c1) && isCont c2 && validUtf8Go fuel r
      | _ => false
    else if b ≤ 0xF4 then
      match rest with
      | c1 :: c2 :: c3 :: r =>
        (if b == 0xF0 then decide (0x90 ≤ c1) && decide (c1 ≤ 0xBF)
         else if b == 0xF4 then decide (0x80 ≤ c1) && decide (c1 ≤ 0x8F)
         else isCont c1) && isCont c2 && isCont c3 && validUtf8Go fuel r
      | _ => false
    else false

/-- Rust str from_utf8 validity of a byte sequence. -/
def validUtf8 (bytes : List Nat) : Bool := validUtf8Go bytes.length bytes

/-- OsStr to_str: some exactly when the bytes are valid UTF-8. -/
def osstrToStr (bytes : List Nat) : Option (List Nat) :=
  if validUtf8 bytes then some bytes else none

/-- Embedding of the readlink function of the fs module: a successful OS
call yields Ok of the to_str result (so possibly a nil for the guest), and
an OS failure is wrapped as a runtime error. -/
def FsUtils.readlink (osResult : Except String (List Nat)) :
    Except LuaError (Option (List Nat)) :=
  match osResult with
  | .ok p => .ok (osstrToStr p)
  | .error e => .error (.runtimeError e)

/-- Claim C8 counterexample: when the OS call succeeds but the link target
is not valid UTF-8 (here the single byte 255), readlink returns Ok none —
the guest observes a nil value, refuting the claim that readlink never
yields a nil/absent value. -/
theorem c8_readlink_nil_counterexample :
    FsUtils.readlink (.ok [255]) = .ok none := rfl

/-- Claim C8 (amended): readlink is total (never crashes) and returns the
link target when the OS call succeeds with a valid-UTF-8 target, a nil
value when the OS call succeeds but the target is not valid UTF-8, and a
reported runtime error carrying the OS message when the call fails (for
example when the path is not a symlink). -/
theorem c8_readlink_total_behaviour :
    (∀ e : String,
      FsUtils.readlink (.error e) = .error (.runtimeError e)) ∧
    (∀ bytes : List Nat, validUtf8 bytes = true →
      FsUtils.readlink (.ok bytes) = .ok (some bytes)) ∧
    (∀ bytes : List Nat, validUtf8 bytes = false →
      FsUtils.readlink (.ok bytes) = .ok none) := by
  refine ⟨fun e => rfl, fun bytes h => ?_, fun bytes h => ?_⟩ <;>
    simp [FsUtils.readlink, osstrToStr, h]

theorem c8_readlink_total_behaviour_witness :
    FsUtils.readlink (.error "invalid argument") =
      .error (.runtimeError "invalid argument") ∧
    FsUtils.readlink (.ok [104, 105]) = .ok (some [104, 105]) ∧
    FsUtils.readlink (.ok [255]) = .ok none :=
  ⟨c8_readlink_total_behaviour.1 "invalid argument",
   c8_readlink_total_behaviour.2.1 [104, 105] (by decide),
   c8_readlink_total_behaviour.2.2 [255] (by decide)⟩

/-! ### Argument-vector injection -/

/-- Lookup in a Lua table modelled as the list of integer-keyed entries that
were set on it. -/
def tableGet {α : Type} (t : List (Nat × α)) (k : Nat) : Option α :=
  (t.find? (fun p => p.1 == k)).map (fun p => p.2)

/-- Embedding of the arg-table construction in main: the enumerated process
arguments are set at the keys i + 1. -/
def arg_table (args : List String) : List (Nat × String) :=
  args.enum.map (fun p => (p.1 + 1, p.2))

theorem tableGet_enumFrom_map {α : Type} :
    ∀ (l : List α) (n i : Nat) (h : i < l.length),
      tableGet ((l.enumFrom n).map (fun p => (p.1 + 1, p.2))) (n + i + 1) =
        some (l.get ⟨i, h⟩) := by
  intro l
  induction l with
  | nil => intro n i h; simp at h
  | cons a rest ih =>
    intro n i h
    cases i with
    | zero =>
      simp [tableGet, List.enumFrom, List.find?_cons]
    | succ j =>
      have harith : n + (j + 1) + 1 = (n + 1) + j + 1 := by omega
      unfold tableGet
      rw [List.enumFrom, List.map_cons,
        List.find?_cons_of_neg _ (by simp only [beq_iff_eq]; omega)]
      rw [harith]
      exact ih (n + 1) j (by simpa using h)

/-- Claim C9: the guest-visible arg sequence holds the process arguments
verbatim and in order, 1-indexed — entry i + 1 is argument i — so the
executable name (the head of the argument vector) is at index 1. -/
theorem c9_arg_table_one_indexed (args : List String) :
    (∀ (i : Nat) (h : i < args.length),
      tableGet (arg_table args) (i + 1) = some (args.get ⟨i, h⟩)) ∧
    (∀ (exe : String) (rest : List String), args = exe :: rest →
      tableGet (arg_table args) 1 = some exe) := by
  constructor
  · intro i h
    have hx := tableGet_enumFrom_map args 0 i h
    simpa [arg_table, List.enum_eq_enumFrom] using hx
  · intro exe rest hargs
    subst hargs
    have hx := tableGet_enumFrom_map (exe :: rest) 0 0 (by simp)
    simpa [arg_table, List.enum_eq_enumFrom] using hx

theorem c9_arg_table_one_indexed_witness :
    tableGet (arg_table ["lunash", "run", "foo"]) 1 = some "lunash" ∧
    tableGet (arg_table ["lunash", "run", "foo"]) 3 = some "foo" := by
  have h1 := (c9_arg_table_one_indexed ["lunash", "run", "foo"]).2
    "lunash" ["run", "foo"] rfl
  have h2 := (c9_arg_table_one_indexed ["lunash", "run", "foo"]).1 2 (by decide)
  exact ⟨h1, by simpa using h2⟩

/-! ### Pattern module

The pattern module wraps the external regex engine.  The engine is modelled
on the construct fragment the claims exercise — literal characters, the
digit class (the claims only use ASCII digits), concatenation, greedy
one-or-more, greedy optional, and numbered capture groups — with the
leftmost-first, preference-ordered backtracking semantics of the wrapped
engine. -/

/-- Abstract syntax of the modelled pattern fragment. -/
inductive RE where
  | chr (c : Char)
  | digit
  | cat (a b : RE)
  | opt (r : RE)
  | plus (r : RE)
  | group (n : Nat) (r : RE)

/-- Structural size of a pattern, used to bound the matcher fuel. -/
def reSize : RE → Nat
  | .chr _ => 1
  | .digit => 1
  | .cat a b => reSize a + reSize b + 1
  | .opt r => reSize r + 1
  | .plus r => reSize r + 1
  | .group _ r => reSize r + 1

/-- Highest capture-group number appearing in a pattern. -/
def numGroups : RE → Nat
  | .chr _ => 0
  | .digit => 0
  | .cat a b => max (numGroups a) (numGroups b)
  | .opt r => numGroups r
  | .plus r => numGroups r
  | .group n r => max n (numGroups r)

/-- Recorded group captures, most recent first. -/
abbrev Caps := List (Nat × List Char)

/-- Backtracking matcher: all ways to match a prefix of the text, in
preference order (greedy operators prefer longer matches), each result
carrying the remaining suffix and the recorded captures. -/
def mrun : Nat → RE → List Char → Caps → List (List Char × Caps)
  | 0, _, _, _ => []
  | _ + 1, .chr _, [], _ => []
  | _ + 1, .chr c, x :: xs, caps => if x == c then [(xs, caps)] else []
  | _ + 1, .digit, [], _ => []
  | _ + 1, .digit, x :: xs, caps => if x.isDigit then [(xs, caps)] else []
  | fuel + 1, .cat a b, s, caps =>
    (mrun fuel a s caps).flatMap (fun p => mrun fuel b p.1 p.2)
  | fuel + 1, .opt r, s, caps => mrun fuel r s caps ++ [(s, caps)]
  | fuel + 1, .plus r, s, caps =>
    (mrun fuel r s caps).flatMap (fun p =>
      if p.1.length < s.length then
        mrun fuel (.plus r) p.1 p.2 ++ [(p.1, p.2)]
      else [(p.1, p.2)])
  | fuel + 1, .group n r, s, caps =>
    (mrun fuel r s caps).map (fun p =>
      (p.1, (n, s.take (s.length - p.1.length)) :: p.2))

/-- Fuel bound for the matcher on a given pattern and text. -/
def matchFuel (re : RE) (s : List Char) : Nat :=
  (reSize re + 1) * (s.length + 2)

/-- Leftmost match: probe start offsets left to right, up to and including
the end of the text, and take the first preference-ordered result at the
first offset that matches. -/
def findAtGo (re : RE) (s : List Char) (i : Nat) :
    Nat → Option (Nat × List Char × Caps)
  | 0 => none
  | fuel + 1 =>
    let sub := s.drop i
    match (mrun (matchFuel re sub) re sub []).head? with
    | some p => some (i, sub.take (sub.length - p.1.length), p.2)
    | none => if i < s.length then findAtGo re s (i + 1) fuel else none

/-- The captures of the leftmost match as the engine reports them: entry 0
is the full match and entry g the capture of group g, which is none when
the group did not participate in the match; no match at all gives none. -/
def rustCaptures (re : RE) (text : List Char) :
    Option (List (Option (List Char))) :=
  match findAtGo re text 0 (text.length + 1) with
  | none => none
  | some (_, full, caps) =>
    some (some full ::
      (List.range (numGroups re)).map (fun g => tableGet caps (g + 1)))

/-- A compiled matcher value as exposed to the guest. -/
structure RegexWrapper where
  re : RE

/-- The is_match method of the wrapper, delegating to the engine. -/
def RegexWrapper.is_match (w : RegexWrapper) (text : List Char) : Bool :=
  (findAtGo w.re text 0 (text.length + 1)).isSome

/-- The captures method of the wrapper: a fresh table; for each present
engine capture (the full match first, then the groups) an entry is set at
key i + 1, while absent captures set nothing; a no-match leaves the table
empty. -/
def RegexWrapper.captures (w : RegexWrapper) (text : List Char) :
    List (Nat × List Char) :=
  match rustCaptures w.re text with
  | none => []
  | some caps =>
    caps.enum.filterMap (fun p => p.2.map (fun v => (p.1 + 1, v)))

/-- Embedding of the regex global registered by main: the external parse
result is mapped into a wrapper value on success, and the parse error
message is wrapped as a guest-catchable runtime error on failure. -/
def regex_global (parseResult : Except String RE) :
    Except LuaError RegexWrapper :=
  match parseResult with
  | .ok re => .ok ⟨re⟩
  | .error e => .error (.runtimeError e)

/-- The pattern of the C4 test case, digits dash digits with two groups. -/
def reDigitsDash : RE :=
  .cat (.group 1 (.plus .digit))
    (.cat (.chr (Char.ofNat 45)) (.group 2 (.plus .digit)))

/-- Claim C4: on the digits-dash-digits pattern and the text 12-34, the
captures table is the ordered sequence with the full match 12-34 at index 1
and the groups 12 and 34 at indices 2 and 3 (full match first, then the
groups left to right, 1-indexed); and for any pattern and text without a
match the captures table is empty rather than an error. -/
theorem c4_captures_full_match_then_groups :
    RegexWrapper.captures ⟨reDigitsDash⟩ ("12-34".data) =
      [(1, "12-34".data), (2, "12".data), (3, "34".data)] ∧
    (∀ (re : RE) (text : List Char),
      rustCaptures re text = none → RegexWrapper.captures ⟨re⟩ text = []) := by
  refine ⟨by decide, fun re text h => ?_⟩
  simp [RegexWrapper.captures, h]

theorem c4_captures_full_match_then_groups_witness :
    rustCaptures reDigitsDash ("ab".data) = none ∧
    RegexWrapper.captures ⟨reDigitsDash⟩ ("ab".data) = [] :=
  ⟨by decide,
   c4_captures_full_match_then_groups.2 reDigitsDash ("ab".data) (by decide)⟩

/-- The pattern of the C5 analysis, group a, optional group b, group c. -/
def reOptGroup : RE :=
  .cat (.group 1 (.chr (Char.ofNat 97)))
    (.cat (.opt (.group 2 (.chr (Char.ofNat 98))))
      (.group 3 (.chr (Char.ofNat 99))))

/-- Definition following the words of the spec claim, for comparison with
the source behaviour: the captures result as a compacted 1-indexed sequence
of the matched groups, omitting the unmatched optional groups. -/
def capturesSpecOmitting (re : RE) (text : List Char) :
    List (Nat × List Char) :=
  match rustCaptures re text with
  | none => []
  | some caps => (caps.filterMap id).enum.map (fun p => (p.1 + 1, p.2))

/-- Claim C5 counterexample: on the pattern group-a optional-group-b
group-c and the text ac, the optional group does not participate; the code
puts the group-c capture at its original key 4, leaving key 3 unset, while
the claimed compacted sequence would put it at index 3 — so the captures
operation does not return the sequence of matched groups with unmatched
optional groups omitted. -/
theorem c5_captures_not_compacted_counterexample :
    RegexWrapper.captures ⟨reOptGroup⟩ ("ac".data) =
      [(1, "ac".data), (2, "a".data), (4, "c".data)] ∧
    capturesSpecOmitting reOptGroup ("ac".data) =
      [(1, "ac".data), (2, "a".data), (3, "c".data)] ∧
    RegexWrapper.captures ⟨reOptGroup⟩ ("ac".data) ≠
      capturesSpecOmitting reOptGroup ("ac".data) :=
  ⟨by decide, by decide, by decide⟩

theorem filterMap_capEntry_cons_some (n : Nat) (v : List Char)
    (rest : List (Nat × Option (List Char))) :
    ((n, some v) :: rest).filterMap
        (fun p => p.2.map (fun w => (p.1 + 1, w))) =
      (n + 1, v) :: rest.filterMap
        (fun p => p.2.map (fun w => (p.1 + 1, w))) := rfl

theorem filterMap_capEntry_cons_none (n : Nat)
    (rest : List (Nat × Option (List Char))) :
    ((n, none) :: rest).filterMap
        (fun p => p.2.map (fun w => (p.1 + 1, w))) =
      rest.filterMap (fun p => p.2.map (fun w => (p.1 + 1, w))) := rfl

theorem tableGet_enumFrom_filterMap_lt :
    ∀ (l : List (Option (List Char))) (n k : Nat), k ≤ n →
      tableGet ((l.enumFrom n).filterMap
        (fun p => p.2.map (fun w => (p.1 + 1, w)))) k = none := by
  intro l
  induction l with
  | nil => intro n k hk; rfl
  | cons c rest ih =>
    intro n k hk
    rw [List.enumFrom_cons]
    cases c with
    | none =>
      rw [filterMap_capEntry_cons_none]
      exact ih (n + 1) k (by omega)
    | some v =>
      rw [filterMap_capEntry_cons_some]
      unfold tableGet
      rw [List.find?_cons_of_neg _ (by simp only [beq_iff_eq]; omega)]
      exact ih (n + 1) k (by omega)

theorem tableGet_enumFrom_filterMap :
    ∀ (l : List (Option (List Char))) (n i : Nat) (h : i < l.length),
      tableGet ((l.enumFrom n).filterMap
        (fun p => p.2.map (fun w => (p.1 + 1, w)))) (n + i + 1) =
        l.get ⟨i, h⟩ := by
  intro l
  induction l with
  | nil => intro n i h; simp at h
  | cons c rest ih =>
    intro n i h
    rw [List.enumFrom_cons]
    cases i with
    | zero =>
      cases c with
      | none =>
        rw [filterMap_capEntry_cons_none]
        exact tableGet_enumFrom_filterMap_lt rest (n + 1) (n + 0 + 1) (by omega)
      | some v =>
        rw [filterMap_capEntry_cons_some]
        unfold tableGet
        rw [List.find?_cons_of_pos _ (by simp)]
        rfl
    | succ j =>
      have harith : n + (j + 1) + 1 = (n + 1) + j + 1 := by omega
      cases c with
      | none =>
        rw [filterMap_capEntry_cons_none, harith]
        exact ih (n + 1) j (by simpa using h)
      | some v =>
        rw [filterMap_capEntry_cons_some]
        unfold tableGet
        rw [List.find?_cons_of_neg _ (by simp only [beq_iff_eq]; omega)]
        rw [harith]
        exact ih (n + 1) j (by simpa using h)

/-- Claim C5 (amended): for every match, the captures table holds at key
i + 1 exactly the engine capture of group i — the capture text when the
group participated, and no entry (nil) when it did not.  Unmatched optional
groups are thus skipped without shifting later groups down: the 1-indexed
table keeps every matched group at its original pattern position, with
holes, rather than forming the compacted sequence. -/
theorem c5_captures_keep_group_positions (re : RE) (text : List Char)
    (caps : List (Option (List Char)))
    (h : rustCaptures re text = some caps)
    (i : Nat) (hi : i < caps.length) :
    tableGet (RegexWrapper.captures ⟨re⟩ text) (i + 1) = caps.get ⟨i, hi⟩ := by
  unfold RegexWrapper.captures
  rw [h]
  have hx := tableGet_enumFrom_filterMap caps 0 i hi
  simpa [List.enum_eq_enumFrom] using hx

theorem c5_captures_keep_group_positions_witness :
    tableGet (RegexWrapper.captures ⟨reOptGroup⟩ ("ac".data)) 3 = none := by
  have hx := c5_captures_keep_group_positions reOptGroup ("ac".data)
    [some ("ac".data), some ("a".data), none, some ("c".data)]
    (by decide) 2 (by decide)
  simpa using hx

/-- Claim C7: the regex global maps every parse failure of the external
engine to a reported runtime-error value carrying the parse message — an
error value returned across the native boundary, recoverable by the guest —
and every successful parse to a wrapper exposing the is_match and captures
methods; is_match agrees with the engine having a match, which is exactly
when captures reports one. -/
theorem c7_regex_constructor_errors :
    (∀ m : String, regex_global (.error m) = .error (.runtimeError m)) ∧
    (∀ re : RE, regex_global (.ok re) = .ok ⟨re⟩) ∧
    (∀ (re : RE) (text : List Char),
      RegexWrapper.is_match ⟨re⟩ text = (rustCaptures re text).isSome) := by
  refine ⟨fun m => rfl, fun re => rfl, fun re text => ?_⟩
  cases hf : findAtGo re text 0 (text.length + 1) with
  | none => simp [RegexWrapper.is_match, rustCaptures, hf]
  | some p =>
    obtain ⟨i, full, caps⟩ := p
    simp [RegexWrapper.is_match, rustCaptures, hf]

end Lunash
